import Mathlib

/-!
Shallow embedding of the session-extra codec (`u_session_extra.go`) and the
ECDHE key pool / TLS 1.3 key schedule (`key_schedule.go`) of this repository.
Byte buffers are `List Nat` (each entry a byte value); machine-integer casts
are explicit `% 2^w`; Go's `(value, error)` returns become `Except`/`Option`.
-/

namespace Utls

/-- A byte, modelled as a natural number (values below 256 on real buffers). -/
abbrev Byte := Nat

/-- Modelled from the spec: `ResumeMechanism` is an enum {Unknown, SessionID,
SessionTicket} defined outside the provided sources; the codec casts it
to/from a single byte on the wire, so it is modelled as a natural number. -/
abbrev ResumeMechanism := Nat

/-- Modelled from the spec: the Unknown resumption mechanism (zero value). -/
def ResumeUnknown : ResumeMechanism := 0

/-- Modelled from the spec: the SessionID resumption mechanism. -/
def ResumeSessionID : ResumeMechanism := 1

/-- Modelled from the spec: the SessionTicket resumption mechanism. -/
def ResumeSessionTicket : ResumeMechanism := 2

/-- `UTLSSessionData` from `u_session_extra.go`: uTLS-specific session
resumption data (resume type and raw session identifier). -/
structure UTLSSessionData where
  ResumeType : ResumeMechanism
  SessionID : List Byte
  deriving DecidableEq

/-- `SessionExtraFieldID` from `u_session_extra.go` (a `uint16`). -/
abbrev SessionExtraFieldID := Nat

/-- Field id `0x7001` carrying uTLS session data. -/
def SessionExtraUTLSData : SessionExtraFieldID := 0x7001

/-- The codec version byte `0x01`. -/
def SessionExtraVersion : Byte := 0x01

/-- `SessionExtraField` from `u_session_extra.go`. -/
structure SessionExtraField where
  ID : SessionExtraFieldID
  Version : Byte
  Data : List Byte
  deriving DecidableEq

/-- The distinct error values produced by the codec, one constructor per Go
error (`errors.New` / `fmt.Errorf`) in `u_session_extra.go`; the two
`fmt.Errorf` errors carry the failing field index, as the Go messages do. -/
inductive CodecError where
  /-- "invalid UTLS session data: too short" -/
  | tooShort
  /-- "invalid UTLS session data: session ID incomplete" -/
  | sessionIDIncomplete
  /-- "invalid extra data: too short" -/
  | extraTooShort
  /-- "invalid extra data: field %d header incomplete" -/
  | fieldHeaderIncomplete (i : Nat)
  /-- "invalid extra data: field %d data incomplete" -/
  | fieldDataIncomplete (i : Nat)
  deriving DecidableEq

/-- `marshalUTLSSessionData` from `u_session_extra.go`. A `nil` pointer
argument is modelled as `none`; the `nil`-slice result as `none`. The bytes
are `uint8(ResumeType) || uint16(len SessionID) big-endian || SessionID`;
the Go casts are the explicit `% 256` / `% 65536`. -/
def marshalUTLSSessionData : Option UTLSSessionData → Option (List Byte)
  | none => none
  | some data =>
    if data.ResumeType = ResumeUnknown ∧ data.SessionID.length = 0 then none
    else
      some ([data.ResumeType % 256,
             data.SessionID.length % 65536 / 256,
             data.SessionID.length % 65536 % 256] ++ data.SessionID)

/-- `unmarshalUTLSSessionData` from `u_session_extra.go`. Inputs of fewer
than 3 bytes fail with `tooShort`; then `sessionIDLen` is read big-endian
from bytes 1-2 and checked against the remaining length (`offset +
sessionIDLen > len data`, with `offset = 3` and `len data = 3 + len rest`);
on success the session id is a copy of the next `sessionIDLen` bytes. -/
def unmarshalUTLSSessionData : List Byte → Except CodecError UTLSSessionData
  | resumeType :: l1 :: l2 :: rest =>
    let sessionIDLen := l1 * 256 + l2
    if 3 + sessionIDLen > 3 + rest.length then .error .sessionIDIncomplete
    else .ok { ResumeType := resumeType, SessionID := rest.take sessionIDLen }
  | _ => .error .tooShort

/-- `marshalSessionExtra` from `u_session_extra.go`: wraps the marshalled
uTLS data in a container `version(1) || count=1(2) || id(2) ||
fieldVersion(1) || length(2) || data`, all multi-byte values big-endian. -/
def marshalSessionExtra : Option UTLSSessionData → Option (List Byte)
  | none => none
  | some data =>
    if data.ResumeType = ResumeUnknown ∧ data.SessionID.length = 0 then none
    else
      match marshalUTLSSessionData (some data) with
      | none => none
      | some utlsDataBytes =>
        some ([SessionExtraVersion, 0, 1,
               SessionExtraUTLSData / 256, SessionExtraUTLSData % 256,
               SessionExtraVersion,
               utlsDataBytes.length % 65536 / 256,
               utlsDataBytes.length % 65536 % 256] ++ utlsDataBytes)

/-- The field loop of `unmarshalSessionExtra` (`for i := 0; i < fieldCount`):
arguments are the current field index `i`, the number of fields still
expected, and the unread suffix of the buffer (the Go `offset` is the amount
already consumed). A suffix shorter than the 5 header bytes fails with
`fieldHeaderIncomplete i`; a declared data length larger than the remainder
fails with `fieldDataIncomplete i`; a field with version `0x01` and id
`0x7001` is decoded via `unmarshalUTLSSessionData` and returned (errors
propagate); any other field is skipped. -/
def parseSessionExtraFields : Nat → Nat → List Byte → Except CodecError (Option UTLSSessionData)
  | _, 0, _ => .ok none
  | i, n + 1, buf =>
    match buf with
    | id1 :: id2 :: fieldVersion :: l1 :: l2 :: rest =>
      let fieldID := id1 * 256 + id2
      let dataLength := l1 * 256 + l2
      if dataLength > rest.length then .error (.fieldDataIncomplete i)
      else if fieldVersion = SessionExtraVersion ∧ fieldID = SessionExtraUTLSData then
        match unmarshalUTLSSessionData (rest.take dataLength) with
        | .ok v => .ok (some v)
        | .error e => .error e
      else parseSessionExtraFields (i + 1) n (rest.drop dataLength)
    | _ => .error (.fieldHeaderIncomplete i)

/-- `unmarshalSessionExtra` from `u_session_extra.go`. An empty buffer is
"no data, no error" (`.ok none`); 1-2 bytes fail with `extraTooShort`
(this check precedes the version check in the Go code); a version byte
other than `0x01` is "no data, no error"; otherwise the big-endian field
count is read and the field loop runs. (The Go `offset+2 > len` field-count
check is unreachable once `len ≥ 3`, so it has no branch here.) -/
def unmarshalSessionExtra : List Byte → Except CodecError (Option UTLSSessionData)
  | [] => .ok none
  | version :: c1 :: c2 :: rest =>
    if version = SessionExtraVersion then
      parseSessionExtraFields 0 (c1 * 256 + c2) rest
    else .ok none
  | _ => .error .extraTooShort

/-- The `Extra` field of `SessionState` is the only part the four
integration functions touch; the rest of the record is opaque here. -/
structure SessionState where
  Extra : List (List Byte)
  deriving DecidableEq

/-- The slot test used by `HasSessionExtra` / `GetSessionExtraFields` /
`ClearSessionExtraFields`: `len(extraItem) >= 1 && extraItem[0] ==
SessionExtraVersion`. -/
def isCodecOwned : List Byte → Bool
  | b :: _ => b == SessionExtraVersion
  | [] => false

/-- `HasSessionExtra` from `u_session_extra.go`: scans for a slot that
starts with the codec version byte, without parsing. -/
def HasSessionExtra (s : SessionState) : Bool :=
  s.Extra.any isCodecOwned

/-- The scan loop of `GetSessionExtraFields`: on a codec-owned slot it runs
`unmarshalSessionExtra`; a parse error continues to the next slot, a parse
success returns its result — even when that result is `none` (Go returns
the possibly-nil pointer directly). -/
def getSessionExtraLoop : List (List Byte) → Option UTLSSessionData
  | [] => none
  | extraItem :: rest =>
    if isCodecOwned extraItem then
      match unmarshalSessionExtra extraItem with
      | .error _ => getSessionExtraLoop rest
      | .ok v => v
    else getSessionExtraLoop rest

/-- `GetSessionExtraFields` from `u_session_extra.go`. -/
def GetSessionExtraFields (s : SessionState) : Option UTLSSessionData :=
  if HasSessionExtra s then getSessionExtraLoop s.Extra else none

/-- `ClearSessionExtraFields` from `u_session_extra.go`: keeps exactly the
slots that are empty or do not start with the codec version byte. -/
def ClearSessionExtraFields (s : SessionState) : SessionState :=
  { Extra := s.Extra.filter fun extraItem => ! isCodecOwned extraItem }

/-- `SetSessionExtraFields` from `u_session_extra.go`: marshals the value;
when nothing comes out it just clears, otherwise it clears and appends the
single fresh slot. -/
def SetSessionExtraFields (s : SessionState) (data : Option UTLSSessionData) : SessionState :=
  match marshalSessionExtra data with
  | none => ClearSessionExtraFields s
  | some extraData =>
    { Extra := (ClearSessionExtraFields s).Extra ++ [extraData] }

/-! Test-harness constructions for containers (wire format from the spec,
used to state properties about inputs the decoder walks). -/

/-- One encoded container field: `id(2, big-endian) || version(1) ||
dataLength(2, big-endian) || data`. -/
def encodeField (f : SessionExtraField) : List Byte :=
  [f.ID / 256, f.ID % 256, f.Version, f.Data.length / 256, f.Data.length % 256] ++ f.Data

/-- Concatenation of encoded fields. -/
def encodeFields : List SessionExtraField → List Byte
  | [] => []
  | f :: fs => encodeField f ++ encodeFields fs

/-- A container with version byte `0x01`, a big-endian field count, and a
body. -/
def mkContainer (count : Nat) (body : List Byte) : List Byte :=
  SessionExtraVersion :: count / 256 :: count % 256 :: body

/-- A field whose id, version and data length fit their wire widths. -/
def wfField (f : SessionExtraField) : Prop :=
  f.ID < 65536 ∧ f.Version < 256 ∧ f.Data.length < 65536

/-- A field the decoder does not recognize (wrong per-field version or
unknown id). -/
def unrecognizedField (f : SessionExtraField) : Prop :=
  f.Version ≠ SessionExtraVersion ∨ f.ID ≠ SessionExtraUTLSData

/-! Embedding of the ECDHE key pool and key schedule (`key_schedule.go`).
Private keys are opaque handles (`Nat`); `crypto/ecdh` key generation is an
oracle passed in as a function (`gen` for the pool fill, `fresh` for the
direct fallback generation, `none` meaning the generation call failed). -/

/-- An opaque `ecdh.PrivateKey` handle. -/
abbrev Key := Nat

/-- A TLS named-group identifier (`CurveID`, a `uint16`). -/
abbrev CurveID := Nat

/-- Modelled from the spec: the X25519 group id (IANA value 29; the
constant is declared outside the provided sources). -/
def X25519 : CurveID := 29

/-- Modelled from the spec: the P-256 group id (IANA value 23). -/
def CurveP256 : CurveID := 23

/-- Modelled from the spec: the P-384 group id (IANA value 24). -/
def CurveP384 : CurveID := 24

/-- Modelled from the spec: the P-521 group id (IANA value 25). -/
def CurveP521 : CurveID := 25

/-- The four `ecdh.Curve` values the code can return. -/
inductive Curve where
  | X25519
  | P256
  | P384
  | P521
  deriving DecidableEq

/-- `curveForCurveID` from `key_schedule.go`: the Go `(ecdh.Curve, bool)`
pair becomes an `Option`. -/
def curveForCurveID (id : CurveID) : Option Curve :=
  if id = X25519 then some Curve.X25519
  else if id = CurveP256 then some Curve.P256
  else if id = CurveP384 then some Curve.P384
  else if id = CurveP521 then some Curve.P521
  else none

/-- `keyCache` from `key_schedule.go`: the slice of key pointers (a `none`
entry is a slot whose generation failed and stayed nil) and the atomic
initialization flag. -/
structure keyCache where
  keys : List (Option Key)
  initialized : Bool
  deriving DecidableEq

/-- `keyCacheSize` from `key_schedule.go`. -/
def keyCacheSize : Nat := 100

/-- `keyCache.init` from `key_schedule.go`: a no-op when already
initialized; otherwise fills all `keyCacheSize` slots from the generation
oracle (failed generations leave `none`, as the Go code leaves nil) and
sets the flag. -/
def keyCache.init (kc : keyCache) (gen : Nat → Option Key) : keyCache :=
  if kc.initialized then kc
  else { keys := (List.range keyCacheSize).map gen, initialized := true }

/-- `keyCache.getRandomKey` from `key_schedule.go`: nil when uninitialized
or empty; otherwise the slot at the random index (`mathrand.IntN` yields an
index below the length; an arbitrary `idx` is reduced `% length`). The slot
itself may be `none` (a nil pointer from a failed generation). -/
def keyCache.getRandomKey (kc : keyCache) (idx : Nat) : Option Key :=
  if !kc.initialized || kc.keys.length == 0 then none
  else kc.keys.getD (idx % kc.keys.length) none

/-- The four process-wide pools (`keyCacheX25519` … `keyCacheP521`),
gathered into one state value. -/
structure KeyCaches where
  keyCacheX25519 : keyCache
  keyCacheP256 : keyCache
  keyCacheP384 : keyCache
  keyCacheP521 : keyCache
  deriving DecidableEq

/-- `getCacheForCurveID` from `key_schedule.go`. -/
def getCacheForCurveID (st : KeyCaches) (curveID : CurveID) : Option keyCache :=
  if curveID = X25519 then some st.keyCacheX25519
  else if curveID = CurveP256 then some st.keyCacheP256
  else if curveID = CurveP384 then some st.keyCacheP384
  else if curveID = CurveP521 then some st.keyCacheP521
  else none

/-- The errors `generateECDHEKey` can surface: the "unsupported curve"
error, or a failure of the direct fallback `curve.GenerateKey` call. -/
inductive KeyGenError where
  | unsupportedCurve
  | generationFailed
  deriving DecidableEq

/-- The lazy-initialization step at the top of `generateECDHEKey`: when the
cache is uninitialized and the curve id resolves, the cache is filled. -/
def lazyInitCache (kc : keyCache) (gen : Nat → Option Key) (curveID : CurveID) : keyCache :=
  if !kc.initialized then
    match curveForCurveID curveID with
    | some _ => keyCache.init kc gen
    | none => kc
  else kc

/-- `generateECDHEKey` from `key_schedule.go`: looks up the pool for the
curve, lazily fills it, serves a non-nil pooled key when one is drawn, and
otherwise falls back to direct generation (`fresh`), which fails with the
"unsupported curve" error when the id resolves to no curve. -/
def generateECDHEKey (st : KeyCaches) (gen : Nat → Option Key) (idx : Nat)
    (fresh : Option Key) (curveID : CurveID) : Except KeyGenError Key :=
  let fallback : Except KeyGenError Key :=
    match curveForCurveID curveID with
    | none => .error .unsupportedCurve
    | some _ =>
      match fresh with
      | some key => .ok key
      | none => .error .generationFailed
  match getCacheForCurveID st curveID with
  | some cache =>
    match keyCache.getRandomKey (lazyInitCache cache gen curveID) idx with
    | some key => .ok key
    | none => fallback
  | none => fallback

/-- The hash algorithm a `cipherSuiteTLS13` is bound to; only its output
size is observable here. -/
structure HashFunction where
  Size : Nat
  deriving DecidableEq

/-- Modelled from the spec: the externally supplied primitives — the RFC
8446 `HKDF-Expand-Label` (hash, secret, label, context, length) and HMAC
(hash, key, message), both opaque to this core. -/
structure KeySchedulePrimitives where
  ExpandLabel : HashFunction → List Byte → String → List Byte → Nat → List Byte
  hmacSum : HashFunction → List Byte → List Byte → List Byte

/-- Modelled from the spec: the fixed AEAD nonce length (12 in TLS 1.3; the
constant is declared outside the provided sources). -/
def aeadNonceLength : Nat := 12

/-- `cipherSuiteTLS13`, restricted to the fields the three derivation
functions read: the bound hash and the AEAD key length. -/
structure cipherSuiteTLS13 where
  hash : HashFunction
  keyLen : Nat
  deriving DecidableEq

/-- `nextTrafficSecret` from `key_schedule.go`. -/
def nextTrafficSecret (P : KeySchedulePrimitives) (c : cipherSuiteTLS13)
    (trafficSecret : List Byte) : List Byte :=
  P.ExpandLabel c.hash trafficSecret "traffic upd" [] c.hash.Size

/-- `trafficKey` from `key_schedule.go`. -/
def trafficKey (P : KeySchedulePrimitives) (c : cipherSuiteTLS13)
    (trafficSecret : List Byte) : List Byte × List Byte :=
  (P.ExpandLabel c.hash trafficSecret "key" [] c.keyLen,
   P.ExpandLabel c.hash trafficSecret "iv" [] aeadNonceLength)

/-- `finishedHash` from `key_schedule.go`: `transcript.Sum(nil)` is the
transcript digest argument. -/
def finishedHash (P : KeySchedulePrimitives) (c : cipherSuiteTLS13)
    (baseKey transcriptDigest : List Byte) : List Byte :=
  P.hmacSum c.hash (P.ExpandLabel c.hash baseKey "finished" [] c.hash.Size) transcriptDigest

/-! Helper lemmas about the container field loop. -/

/-- Big-endian reassembly of a 16-bit value from its two wire bytes. -/
theorem div_mul_add_mod_eq (y : Nat) : y / 256 * 256 + y % 256 = y := by omega

/-- The field loop steps over one encoded unrecognized field, advancing the
field index. -/
theorem parseSessionExtraFields_skip (i n : Nat) (f : SessionExtraField) (rest : List Byte)
    (hu : unrecognizedField f) :
    parseSessionExtraFields i (n + 1) (encodeField f ++ rest) =
      parseSessionExtraFields (i + 1) n rest := by
  have hid : f.ID / 256 * 256 + f.ID % 256 = f.ID := div_mul_add_mod_eq f.ID
  have hlen : f.Data.length / 256 * 256 + f.Data.length % 256 = f.Data.length :=
    div_mul_add_mod_eq f.Data.length
  have hnot : ¬ (f.Version = SessionExtraVersion ∧
      f.ID / 256 * 256 + f.ID % 256 = SessionExtraUTLSData) := by
    rw [hid]
    rcases hu with h | h
    · exact fun hc => h hc.1
    · exact fun hc => h hc.2
  simp only [encodeField, List.cons_append, List.nil_append, parseSessionExtraFields]
  rw [hlen, if_neg (by simp [List.length_append]), if_neg hnot, List.drop_left]

/-- The field loop steps over any run of encoded unrecognized fields. -/
theorem parseSessionExtraFields_skipAll (fields : List SessionExtraField) (i n : Nat)
    (tail : List Byte) (hf : ∀ f ∈ fields, unrecognizedField f) :
    parseSessionExtraFields i (fields.length + n) (encodeFields fields ++ tail) =
      parseSessionExtraFields (i + fields.length) n tail := by
  induction fields generalizing i with
  | nil => simp [encodeFields]
  | cons f fs ih =>
    have h1 : (f :: fs).length + n = (fs.length + n) + 1 := by
      simp only [List.length_cons]; omega
    have h2 : encodeFields (f :: fs) ++ tail = encodeField f ++ (encodeFields fs ++ tail) := by
      simp [encodeFields, List.append_assoc]
    have h3 : i + 1 + fs.length = i + (f :: fs).length := by
      simp only [List.length_cons]; omega
    rw [h1, h2, parseSessionExtraFields_skip i (fs.length + n) f _ (hf f (by simp)),
      ih (i + 1) (fun g hg => hf g (by simp [hg])), h3]

/-- With fields still expected, a suffix shorter than a field header fails
with `fieldHeaderIncomplete` at the current index. -/
theorem parseSessionExtraFields_header_trunc (i n : Nat) (tail : List Byte)
    (h5 : tail.length < 5) :
    parseSessionExtraFields i (n + 1) tail = .error (CodecError.fieldHeaderIncomplete i) := by
  rcases tail with _ | ⟨a, _ | ⟨b, _ | ⟨c, _ | ⟨d, _ | ⟨e, t⟩⟩⟩⟩⟩
  · rfl
  · rfl
  · rfl
  · rfl
  · rfl
  · exact absurd h5 (by simp only [List.length_cons]; omega)

/-- A declared field data length larger than the rest of the buffer fails
with `fieldDataIncomplete` at the current index. -/
theorem parseSessionExtraFields_data_trunc (i n : Nat) (id1 id2 fv l1 l2 : Byte)
    (rest2 : List Byte) (h : rest2.length < l1 * 256 + l2) :
    parseSessionExtraFields i (n + 1) (id1 :: id2 :: fv :: l1 :: l2 :: rest2) =
      .error (CodecError.fieldDataIncomplete i) := by
  simp only [parseSessionExtraFields]
  rw [if_pos]
  exact h

/-- A run of encoded unrecognized fields, walked to the end, yields "no
data, no error". -/
theorem parseSessionExtraFields_all_unrecognized (fields : List SessionExtraField) (i : Nat)
    (hf : ∀ f ∈ fields, unrecognizedField f) :
    parseSessionExtraFields i fields.length (encodeFields fields) = .ok none := by
  have := parseSessionExtraFields_skipAll fields i 0 [] hf
  simpa using this

/-! The claims. -/

/-- C1 counterexample: the logically empty value (resumeType Unknown, empty
session id) is a valid `SessionResumptionData`, but encoding it produces no
bytes (`nil`), and decoding the absent buffer fails with the "too short"
error instead of returning the value, so `decode(encode(v)) == v` fails. -/
theorem roundtrip_fails_on_empty_value :
    marshalUTLSSessionData (some ⟨ResumeUnknown, []⟩) = none ∧
    unmarshalUTLSSessionData [] = .error CodecError.tooShort :=
  ⟨rfl, rfl⟩

/-- C1 (amended): for every `SessionResumptionData` value that is not
logically empty — resume type a byte, session id of length 0..65535 —
decoding the bytes produced by encoding yields the same resume type and
the same session-id bytes. -/
theorem marshal_unmarshal_roundtrip (rt : Nat) (sid : List Byte)
    (hrt : rt < 256) (hlen : sid.length ≤ 65535)
    (hne : ¬ (rt = ResumeUnknown ∧ sid.length = 0)) :
    ∃ bytes, marshalUTLSSessionData (some ⟨rt, sid⟩) = some bytes ∧
      unmarshalUTLSSessionData bytes = .ok ⟨rt, sid⟩ := by
  refine ⟨[rt % 256, sid.length % 65536 / 256, sid.length % 65536 % 256] ++ sid, ?_, ?_⟩
  · simp only [marshalUTLSSessionData]
    rw [if_neg hne]
  · have h1 : sid.length % 65536 = sid.length := Nat.mod_eq_of_lt (by omega)
    have h2 : rt % 256 = rt := Nat.mod_eq_of_lt hrt
    simp only [h1, h2, List.cons_append, List.nil_append, unmarshalUTLSSessionData,
      div_mul_add_mod_eq]
    rw [if_neg]
    · simp [List.take_length]
    · exact fun hgt => absurd (Nat.lt_of_add_lt_add_left hgt) (Nat.lt_irrefl _)

/-- C1 witness: the amended round-trip at a concrete non-empty value. -/
theorem marshal_unmarshal_roundtrip_witness :
    ∃ bytes, marshalUTLSSessionData (some ⟨ResumeSessionID, [170]⟩) = some bytes ∧
      unmarshalUTLSSessionData bytes = .ok ⟨ResumeSessionID, [170]⟩ :=
  marshal_unmarshal_roundtrip ResumeSessionID [170] (by decide) (by decide) (by decide)

/-- C2 counterexample: `[0x02]` is a non-empty buffer whose first byte
differs from the codec version `0x01`, yet `unmarshalSessionExtra` returns
the "too short" error, not `(nil, nil)` — the length check precedes the
version check. -/
theorem unmarshalSessionExtra_short_foreign_buffer_errors :
    unmarshalSessionExtra [0x02] = .error CodecError.extraTooShort :=
  rfl

/-- C2 (amended): every buffer of at least 3 bytes whose first byte differs
from the codec version `0x01` decodes to no data and no error; and every
well-formed version-`0x01` container holding only fields with unrecognized
ids or unrecognized per-field versions also decodes to no data and no
error. (Non-empty buffers of fewer than 3 bytes instead fail with the
"too short" error.) -/
theorem unmarshalSessionExtra_forward_compat :
    (∀ data : List Byte, 3 ≤ data.length → data.head? ≠ some SessionExtraVersion →
      unmarshalSessionExtra data = .ok none) ∧
    (∀ fields : List SessionExtraField, fields.length ≤ 65535 →
      (∀ f ∈ fields, wfField f ∧ unrecognizedField f) →
      unmarshalSessionExtra (mkContainer fields.length (encodeFields fields)) = .ok none) := by
  constructor
  · intro data h3 hv
    rcases data with _ | ⟨v, _ | ⟨c1, _ | ⟨c2, rest⟩⟩⟩
    · simp at h3
    · simp at h3
    · simp at h3
    · simp only [List.head?] at hv
      simp only [unmarshalSessionExtra]
      rw [if_neg]
      intro h
      exact hv (by rw [h])
  · intro fields hlen hwf
    simp only [mkContainer, unmarshalSessionExtra, if_true, div_mul_add_mod_eq]
    exact parseSessionExtraFields_all_unrecognized fields 0 (fun f hf => (hwf f hf).2)

/-- C2 witness: the amended statement at a concrete 4-byte buffer with a
foreign version byte. -/
theorem unmarshalSessionExtra_forward_compat_witness :
    unmarshalSessionExtra [0x02, 0x05, 0x05, 0x05] = .ok none :=
  unmarshalSessionExtra_forward_compat.1 [0x02, 0x05, 0x05, 0x05] (by decide) (by decide)

/-- C3: truncation safety of the container decoder. For any version-`0x01`
container whose declared field count exceeds the fields present, after any
run of well-formed unrecognized fields: a remaining suffix shorter than the
5 header bytes yields the malformed-input error naming the failing field's
index, and a field whose declared data length exceeds the remaining bytes
yields the data-incomplete error naming that index — in both cases a
returned error, never a value (the decoder is a total function, so no
out-of-bounds access or panic is possible). -/
theorem unmarshalSessionExtra_truncation
    (fields : List SessionExtraField) (count : Nat) (tail : List Byte)
    (hf : ∀ f ∈ fields, wfField f ∧ unrecognizedField f)
    (hcount : fields.length < count) (hc : count ≤ 65535) :
    (tail.length < 5 →
      unmarshalSessionExtra (mkContainer count (encodeFields fields ++ tail)) =
        .error (CodecError.fieldHeaderIncomplete fields.length)) ∧
    (∀ id1 id2 fv l1 l2 : Nat, ∀ rest2 : List Byte,
      tail = id1 :: id2 :: fv :: l1 :: l2 :: rest2 →
      rest2.length < l1 * 256 + l2 →
      unmarshalSessionExtra (mkContainer count (encodeFields fields ++ tail)) =
        .error (CodecError.fieldDataIncomplete fields.length)) := by
  obtain ⟨c, hc2⟩ : ∃ c, count = fields.length + (c + 1) :=
    ⟨count - fields.length - 1, by omega⟩
  have hstep : unmarshalSessionExtra (mkContainer count (encodeFields fields ++ tail)) =
      parseSessionExtraFields fields.length (c + 1) tail := by
    simp only [mkContainer, unmarshalSessionExtra, if_true, div_mul_add_mod_eq]
    rw [hc2, parseSessionExtraFields_skipAll fields 0 (c + 1) tail (fun f hf' => (hf f hf').2)]
    simp
  constructor
  · intro h5
    rw [hstep]
    exact parseSessionExtraFields_header_trunc fields.length c tail h5
  · intro id1 id2 fv l1 l2 rest2 htail hshort
    rw [hstep, htail]
    exact parseSessionExtraFields_data_trunc fields.length c id1 id2 fv l1 l2 rest2 hshort

/-- C3 witness: a container declaring one field whose header is cut off
after one byte fails naming field index 0. -/
theorem unmarshalSessionExtra_truncation_witness :
    unmarshalSessionExtra [0x01, 0x00, 0x01, 0x70] =
      .error (CodecError.fieldHeaderIncomplete 0) :=
  (unmarshalSessionExtra_truncation [] 1 [0x70] (by simp) (by decide) (by decide)).1 (by decide)

/-- C4: the payload decoder fails with the "too short" error exactly when
the input has fewer than 3 bytes; with at least 3 bytes it fails with the
"incomplete" error exactly when the declared big-endian session-id length
exceeds the remaining bytes, and otherwise succeeds with the read resume
type and a (value-level) copy of the declared number of session-id bytes. -/
theorem unmarshalUTLSSessionData_contract (data : List Byte) :
    (unmarshalUTLSSessionData data = .error CodecError.tooShort ↔ data.length < 3) ∧
    (∀ rt l1 l2 : Nat, ∀ rest : List Byte, data = rt :: l1 :: l2 :: rest →
      (rest.length < l1 * 256 + l2 →
        unmarshalUTLSSessionData data = .error CodecError.sessionIDIncomplete) ∧
      (l1 * 256 + l2 ≤ rest.length →
        unmarshalUTLSSessionData data = .ok ⟨rt, rest.take (l1 * 256 + l2)⟩)) := by
  constructor
  · rcases data with _ | ⟨rt, _ | ⟨l1, _ | ⟨l2, rest⟩⟩⟩
    · exact iff_of_true rfl (by simp)
    · exact iff_of_true rfl (by simp)
    · exact iff_of_true rfl (by simp)
    · constructor
      · intro h
        simp only [unmarshalUTLSSessionData] at h
        split at h <;> simp_all
      · intro h
        exfalso
        simp only [List.length_cons] at h
        omega
  · intro rt l1 l2 rest heq
    subst heq
    constructor
    · intro h
      simp only [unmarshalUTLSSessionData]
      rw [if_pos]
      exact Nat.add_lt_add_left h 3
    · intro h
      simp only [unmarshalUTLSSessionData]
      rw [if_neg]
      exact fun hgt => absurd (Nat.lt_of_add_lt_add_left hgt) (Nat.not_lt.mpr h)

/-- C4 witness: the contract at a concrete 4-byte buffer declaring one
session-id byte. -/
theorem unmarshalUTLSSessionData_contract_witness :
    unmarshalUTLSSessionData [0x01, 0x00, 0x01, 0x07] = .ok ⟨0x01, [0x07]⟩ := by
  have h := ((unmarshalUTLSSessionData_contract [0x01, 0x00, 0x01, 0x07]).2
    0x01 0x00 0x01 [0x07] rfl).2 (by decide)
  simpa using h

/-- C5: encoding the value (resume type SessionID, session id the 32
ascending bytes 0x00..0x1F) and wrapping it in a container produces exactly
the 43 bytes version || count=1 || id=0x7001 || fieldVersion=0x01 ||
len=35 || payload, and decoding that exact buffer reproduces the value. -/
theorem marshalSessionExtra_example_scenario :
    marshalSessionExtra (some ⟨ResumeSessionID, List.range 32⟩) =
      some ([0x01, 0x00, 0x01, 0x70, 0x01, 0x01, 0x00, 0x23] ++
        ([0x01, 0x00, 0x20] ++ List.range 32)) ∧
    ([0x01, 0x00, 0x01, 0x70, 0x01, 0x01, 0x00, 0x23] ++
        ([0x01, 0x00, 0x20] ++ List.range 32)).length = 43 ∧
    unmarshalSessionExtra ([0x01, 0x00, 0x01, 0x70, 0x01, 0x01, 0x00, 0x23] ++
        ([0x01, 0x00, 0x20] ++ List.range 32)) =
      .ok (some ⟨ResumeSessionID, List.range 32⟩) :=
  ⟨rfl, rfl, rfl⟩

/-- C10: a `SessionState` whose slots start with the version byte `0x01`
but either fail to decode (`[0x01, 0x00]` is too short) or decode to no
recognized field (`[0x01, 0x00, 0x00]` declares zero fields) makes
`HasSessionExtra` report `true` while `GetSessionExtraFields` returns
nothing. -/
theorem hasSessionExtra_without_getSessionExtra :
    HasSessionExtra ⟨[[0x01, 0x00], [0x01, 0x00, 0x00]]⟩ = true ∧
    GetSessionExtraFields ⟨[[0x01, 0x00], [0x01, 0x00, 0x00]]⟩ = none :=
  ⟨rfl, rfl⟩

/-! Helper lemmas for the `SessionState` slot operations. -/

/-- Keeping non-owned slots is idempotent. -/
theorem filter_not_owned_idem (l : List (List Byte)) :
    ((l.filter fun x => ! isCodecOwned x).filter fun x => ! isCodecOwned x) =
      l.filter fun x => ! isCodecOwned x := by
  induction l with
  | nil => rfl
  | cons a t ih =>
    by_cases h : isCodecOwned a <;> simp [List.filter_cons, h, ih]

/-- After keeping only non-owned slots, no owned slot remains. -/
theorem countP_owned_filtered (l : List (List Byte)) :
    ((l.filter fun x => ! isCodecOwned x).countP isCodecOwned) = 0 := by
  rw [List.countP_eq_zero]
  intro a ha
  have h := (List.mem_filter.mp ha).2
  simp at h
  simp [h]

/-- Whatever `marshalSessionExtra` emits starts with the codec version
byte, so the freshly appended slot is codec-owned. -/
theorem isCodecOwned_marshalSessionExtra (data : Option UTLSSessionData) (e : List Byte)
    (h : marshalSessionExtra data = some e) : isCodecOwned e = true := by
  rcases data with _ | d
  · simp [marshalSessionExtra] at h
  · simp only [marshalSessionExtra] at h
    split at h
    · exact absurd h (by simp)
    · split at h
      · exact absurd h (by simp)
      · rw [List.cons_append] at h
        injection h with h1
        rw [← h1]
        rfl

/-- C6: clearing is idempotent, and setting then clearing leaves zero
codec-owned slots while every foreign slot of the original state survives
unchanged and in its original relative order (the remaining `Extra` list is
exactly the foreign sublist of the original). -/
theorem clearSessionExtra_idempotent_and_frame (s : SessionState)
    (data : Option UTLSSessionData) :
    ClearSessionExtraFields (ClearSessionExtraFields s) = ClearSessionExtraFields s ∧
    (ClearSessionExtraFields (SetSessionExtraFields s data)).Extra.countP isCodecOwned = 0 ∧
    (ClearSessionExtraFields (SetSessionExtraFields s data)).Extra =
      s.Extra.filter (fun extraItem => ! isCodecOwned extraItem) := by
  have key : (ClearSessionExtraFields (SetSessionExtraFields s data)).Extra =
      s.Extra.filter (fun extraItem => ! isCodecOwned extraItem) := by
    rw [SetSessionExtraFields]
    split
    · simp [ClearSessionExtraFields, filter_not_owned_idem]
    · rename_i e he
      simp only [ClearSessionExtraFields, List.filter_append, filter_not_owned_idem]
      rw [List.filter_cons]
      simp [isCodecOwned_marshalSessionExtra data e he]
  refine ⟨?_, ?_, key⟩
  · simp [ClearSessionExtraFields, filter_not_owned_idem]
  · rw [key]
    exact countP_owned_filtered s.Extra

/-- C7: after `SetSessionExtraFields` the state holds at most one
codec-owned slot, and after `ClearSessionExtraFields` it holds none,
whatever the state held before. -/
theorem sessionExtra_single_owned_slot (s : SessionState) (data : Option UTLSSessionData) :
    (SetSessionExtraFields s data).Extra.countP isCodecOwned ≤ 1 ∧
    (ClearSessionExtraFields s).Extra.countP isCodecOwned = 0 := by
  refine ⟨?_, countP_owned_filtered s.Extra⟩
  rw [SetSessionExtraFields]
  split
  · simp only [ClearSessionExtraFields]
    have h := countP_owned_filtered s.Extra
    omega
  · rename_i e he
    simp only [List.countP_append, ClearSessionExtraFields]
    have h := countP_owned_filtered s.Extra
    have h2 : List.countP isCodecOwned [e] ≤ 1 := by
      by_cases hc : isCodecOwned e <;> simp [List.countP_cons, hc]
    omega

/-! Helper lemma for the key pool. -/

/-- The pool lookup and the curve lookup recognize exactly the same curve
ids (the two Go switches have the same four cases). -/
theorem getCache_isSome_iff (st : KeyCaches) (curveID : CurveID) :
    (getCacheForCurveID st curveID).isSome = (curveForCurveID curveID).isSome := by
  rw [getCacheForCurveID, curveForCurveID]
  split_ifs <;> rfl

/-- C8: for every pool state, pool-fill oracle, random index and successful
direct generation, `generateECDHEKey` on a supported curve id returns a
key; on an unsupported curve id it fails with the unsupported-curve error
whatever the direct generation does; and any key it returns is either the
directly generated key or the content of a successfully generated
(non-nil) slot of the lazily initialized pool — a nil slot is never
surfaced. -/
theorem generateECDHEKey_contract (st : KeyCaches) (gen : Nat → Option Key)
    (idx : Nat) (freshKey : Key) (curveID : CurveID) :
    ((curveForCurveID curveID).isSome →
      ∃ key, generateECDHEKey st gen idx (some freshKey) curveID = .ok key) ∧
    (curveForCurveID curveID = none → ∀ fresh : Option Key,
      generateECDHEKey st gen idx fresh curveID = .error KeyGenError.unsupportedCurve) ∧
    (∀ key, generateECDHEKey st gen idx (some freshKey) curveID = .ok key →
      key = freshKey ∨
      ∃ kc, getCacheForCurveID st curveID = some kc ∧
        ∃ j, j < (lazyInitCache kc gen curveID).keys.length ∧
          (lazyInitCache kc gen curveID).keys.getD j none = some key) := by
  refine ⟨?_, ?_, ?_⟩
  · intro hsup
    obtain ⟨cv, hcv⟩ := Option.isSome_iff_exists.mp hsup
    rcases hcache : getCacheForCurveID st curveID with _ | kc
    · exact ⟨freshKey, by simp [generateECDHEKey, hcache, hcv]⟩
    · rcases hk : keyCache.getRandomKey (lazyInitCache kc gen curveID) idx with _ | key
      · exact ⟨freshKey, by simp [generateECDHEKey, hcache, hk, hcv]⟩
      · exact ⟨key, by simp [generateECDHEKey, hcache, hk]⟩
  · intro hns fresh
    have hcache : getCacheForCurveID st curveID = none := by
      have h := getCache_isSome_iff st curveID
      rw [hns] at h
      simp only [Option.isSome_none] at h
      exact Option.not_isSome_iff_eq_none.mp (by simp [h])
    simp [generateECDHEKey, hcache, hns]
  · intro key hkey
    rw [generateECDHEKey] at hkey
    split at hkey
    · rename_i kc hcache
      split at hkey
      · rename_i k hk
        right
        refine ⟨kc, hcache, ?_⟩
        have hkk : k = key := by simpa using hkey
        rw [keyCache.getRandomKey] at hk
        split at hk
        · exact absurd hk (by simp)
        · rename_i hcond
          refine ⟨idx % (lazyInitCache kc gen curveID).keys.length, ?_, ?_⟩
          · have h2 : (lazyInitCache kc gen curveID).keys.length ≠ 0 := by
              intro h0
              exact hcond (by simp [h0])
            exact Nat.mod_lt _ (Nat.pos_of_ne_zero h2)
          · rw [← hkk]
            exact hk
      · rename_i hk
        left
        split at hkey
        · exact absurd hkey (by simp)
        · simpa using hkey.symm
    · rename_i hcache
      left
      split at hkey
      · exact absurd hkey (by simp)
      · simpa using hkey.symm

/-- C8 witness: the contract at a concrete state — uninitialized empty
pools, a pool-fill oracle that always fails, index 0, direct generation
yielding key 42 — on the X25519 curve id. -/
theorem generateECDHEKey_contract_witness :
    ∃ key, generateECDHEKey ⟨⟨[], false⟩, ⟨[], false⟩, ⟨[], false⟩, ⟨[], false⟩⟩
      (fun _ => none) 0 (some 42) X25519 = .ok key :=
  (generateECDHEKey_contract ⟨⟨[], false⟩, ⟨[], false⟩, ⟨[], false⟩, ⟨[], false⟩⟩
    (fun _ => none) 0 42 X25519).1 (by decide)

/-- C9: the three key-schedule derivations have exactly the RFC 8446 shape:
the next traffic secret is HKDF-Expand-Label with label "traffic upd",
empty context and hash-size length; the traffic key and IV are
HKDF-Expand-Label with labels "key" and "iv" and the bound AEAD key length
and fixed nonce length; and the Finished MAC first derives the key with
label "finished" and hash-size length and then HMACs the transcript digest
under it, so its length is the hash size whenever the HMAC primitive
returns digests of the hash size. -/
theorem keySchedule_derivation_shapes (P : KeySchedulePrimitives) (c : cipherSuiteTLS13)
    (secret baseKey transcriptDigest : List Byte)
    (hhmac : ∀ h : HashFunction, ∀ key msg : List Byte, (P.hmacSum h key msg).length = h.Size) :
    nextTrafficSecret P c secret =
      P.ExpandLabel c.hash secret "traffic upd" [] c.hash.Size ∧
    trafficKey P c secret =
      (P.ExpandLabel c.hash secret "key" [] c.keyLen,
       P.ExpandLabel c.hash secret "iv" [] aeadNonceLength) ∧
    finishedHash P c baseKey transcriptDigest =
      P.hmacSum c.hash (P.ExpandLabel c.hash baseKey "finished" [] c.hash.Size)
        transcriptDigest ∧
    (finishedHash P c baseKey transcriptDigest).length = c.hash.Size :=
  ⟨rfl, rfl, rfl, hhmac c.hash _ transcriptDigest⟩

/-- C9 witness: the shapes at a concrete primitive assignment (ExpandLabel
producing zero-filled output of the requested length, HMAC producing a
zero-filled digest of the hash size) and a 32-byte-hash, 16-byte-key
suite. -/
theorem keySchedule_derivation_shapes_witness :
    (finishedHash ⟨fun _ _ _ _ n => List.replicate n 0, fun h _ _ => List.replicate h.Size 0⟩
      ⟨⟨32⟩, 16⟩ [] []).length = 32 :=
  (keySchedule_derivation_shapes
    ⟨fun _ _ _ _ n => List.replicate n 0, fun h _ _ => List.replicate h.Size 0⟩
    ⟨⟨32⟩, 16⟩ [] [] []
    (fun h _ _ => List.length_replicate h.Size 0)).2.2.2

end Utls
